import Mathlib

/-!
# Verification of the `dynamodb_utils` decoding/normalization core

Shallow embedding of `src/dynamodb_utils/__init__.py`:

* `parseDynamodbObject` embeds `DynamoDBUtils.__parse_dynamodb_object`;
* `objectHook` and `hookField` embed `DynamoDBUtils.__object_hook`;
* `decode` embeds the recursive, bottom-up reinterpretation driven by
  `json.loads(..., object_hook=...)` in `DynamoDBUtils.load_object`,
  written as an explicit post-order traversal over a generic value tree;
* `replaceDecimals` embeds `DynamoDBUtils.__replace_decimals`.

Python scalars are modelled as follows: `int` by `Int`; `float` and
`decimal.Decimal` by `Rat` carrying the exact numeric value (every numeric
literal exercised here is exactly representable, so no rounding is modelled);
`datetime` by an explicit `Timestamp` record; `str` by `String` (digits are
modelled as ASCII digits).  Fallible Python code (uncaught `TypeError` /
`ValueError`) is modelled with `Except PyErr`.
-/

/-- Exceptions that can escape the decoding code: `datetime.strptime` and
`re.match` raise `TypeError` on non-string input (only `ValueError` is caught
in the source), and `int(...)` raises `ValueError` on a non-numeric string. -/
inductive PyErr where
  | typeError
  | valueError
deriving DecidableEq, Repr

/-- A parsed `datetime.datetime` (naive, as produced by
`datetime.strptime(value, '%Y-%m-%dT%H:%M:%S.%f')`). -/
structure Timestamp where
  year : Nat
  month : Nat
  day : Nat
  hour : Nat
  minute : Nat
  second : Nat
  microsecond : Nat
deriving DecidableEq, Repr

/-- The dynamic value tree the decoder operates on: generic JSON values plus
the native Python values the library produces or receives from the data-store
client (`datetime`, `set`, `Decimal`).  Objects are insertion-ordered
association lists, as Python dicts are. -/
inductive Value : Type where
  | null
  | bool (b : Bool)
  | int (n : Int)
  | float (q : ℚ)
  | decimal (q : ℚ)
  | str (s : String)
  | timestamp (t : Timestamp)
  | list (xs : List Value)
  | set (xs : List Value)
  | dict (fs : List (String × Value))

/-! ## Embeddings of the Python builtins used by the source -/

/-- Numeric value of a list of ASCII digit characters. -/
def digitsVal (cs : List Char) : Nat :=
  cs.foldl (fun a c => 10 * a + (c.toNat - 48)) 0

/-- The whitespace characters stripped by Python's `int(...)`/`float(...)`. -/
def isPyWs (c : Char) : Bool :=
  c = ' ' || c = '\t' || c = '\n' || c = '\r' || c = '\x0b' || c = '\x0c'

/-- Strip leading and trailing whitespace, as `int(...)`/`float(...)` do. -/
def stripWs (cs : List Char) : List Char :=
  ((cs.dropWhile isPyWs).reverse.dropWhile isPyWs).reverse

/-- Split an optional leading sign character off a numeric literal:
returns `(isNegative, rest)`. -/
def splitSign (cs : List Char) : Bool × List Char :=
  match cs with
  | [] => (false, [])
  | c :: t => if c = '-' then (true, t) else if c = '+' then (false, t) else (false, c :: t)

/-- Python `int(s)` on a `str`: optional surrounding whitespace, an optional
sign, then a nonempty run of digits; anything else raises `ValueError`.
(CPython also allows digit-group underscores and non-ASCII digits; no claim
involves either.) -/
def pyIntCore (neg : Bool) (ds : List Char) : Except PyErr Int :=
  if ds ≠ [] ∧ ds.all Char.isDigit then
    .ok ((cond neg (-1) 1) * (digitsVal ds : Int))
  else .error .valueError

def pyIntChars (cs : List Char) : Except PyErr Int :=
  let p := splitSign (stripWs cs)
  pyIntCore p.1 p.2

def pyInt (s : String) : Except PyErr Int := pyIntChars s.data

/-- Python `float(s)` on a `str`, modelled on the decimal forms
`[ws] [sign] digits [. digits] [ws]` that are reachable in the source (the
call is guarded by the regex `^-?\d+?\.\d+?$`); the value is exact.  CPython
additionally accepts exponents, `inf`/`nan` and underscores, none of which
can reach the call. -/
def pyFloatCore (neg : Bool) (cs : List Char) : Except PyErr ℚ :=
  let ip := cs.takeWhile Char.isDigit
  let rest := cs.dropWhile Char.isDigit
  match rest with
  | [] =>
    if ip ≠ [] then
      .ok ((cond neg (-1) 1 : ℚ) * (digitsVal ip : ℚ))
    else .error .valueError
  | c :: fp =>
    if c = '.' then
      if fp.all Char.isDigit ∧ (ip ≠ [] ∨ fp ≠ []) then
        .ok ((cond neg (-1) 1 : ℚ) * ((digitsVal ip : ℚ) + (digitsVal fp : ℚ) / 10 ^ fp.length))
      else .error .valueError
    else .error .valueError

def pyFloatChars (cs : List Char) : Except PyErr ℚ :=
  let p := splitSign (stripWs cs)
  pyFloatCore p.1 p.2

def pyFloat (s : String) : Except PyErr ℚ := pyFloatChars s.data

/-- Strip the optional leading minus sign of the source's regex. -/
def stripMinus (cs : List Char) : List Char :=
  match cs with
  | [] => []
  | c :: t => if c = '-' then t else c :: t

/-- Full match of a character list against `-?\d+?\.\d+?` (the body of the
source's regex `"^-?\\d+?\\.\\d+?$"`): an optional minus sign, a nonempty
digit run, a literal dot, a nonempty digit run, end. The lazy quantifiers do
not change the accepted language under the `^...$` anchors. -/
def fracLitChars (cs : List Char) : Bool :=
  let cs := stripMinus cs
  let ip := cs.takeWhile Char.isDigit
  let rest := cs.dropWhile Char.isDigit
  !ip.isEmpty &&
    match rest with
    | c :: rest' =>
      c = '.' && !(rest'.takeWhile Char.isDigit).isEmpty &&
        (rest'.dropWhile Char.isDigit).isEmpty
    | [] => false

/-- `re.match("^-?\\d+?\\.\\d+?$", s) is not None`.  In Python's `re`, `$`
also matches just before a single trailing newline, so e.g. `"3.5\n"`
matches. -/
def reMatchNum (s : String) : Bool :=
  fracLitChars s.data ||
    match s.data.getLast? with
    | some c => c = '\n' && fracLitChars s.data.dropLast
    | none => false

/-- Leap-year rule used by `datetime` (proleptic Gregorian). -/
def isLeapYear (y : Nat) : Bool :=
  y % 4 = 0 && (y % 100 ≠ 0 || y % 400 = 0)

/-- Number of days of month `m` of year `y`, as validated by the
`datetime.datetime` constructor. -/
def daysInMonth (y m : Nat) : Nat :=
  if m = 2 then (if isLeapYear y then 29 else 28)
  else if m = 4 ∨ m = 6 ∨ m = 9 ∨ m = 11 then 30
  else 31

/-- Read one numeric field of the strptime regex: the run of digits at the
head of `cs` must have length between `minLen` and `maxLen` and value between
`lo` and `hi` (this reproduces the per-directive alternations of CPython's
`_strptime`, e.g. `%m` ↦ `1[0-2]|0[1-9]|[1-9]`, given that each field here is
delimited by a non-digit or the end of the string). -/
def readTsField (cs : List Char) (minLen maxLen lo hi : Nat) : Option (Nat × List Char) :=
  let ds := cs.takeWhile Char.isDigit
  let rest := cs.dropWhile Char.isDigit
  if minLen ≤ ds.length ∧ ds.length ≤ maxLen ∧ lo ≤ digitsVal ds ∧ digitsVal ds ≤ hi then
    some (digitsVal ds, rest)
  else none

/-- `datetime.strptime(s, '%Y-%m-%dT%H:%M:%S.%f')`, returning `none` where
CPython raises `ValueError`.  Faithful to CPython `_strptime` semantics at
this fixed format: `%Y` is exactly four digits; `%m`, `%d`, `%H`, `%M`, `%S`
are one or two digits within their ranges; `%f` is one to six digits, padded
on the right to microseconds; the regex is compiled with `IGNORECASE`, so the
literal `T` also matches `t`; the whole string must be consumed; and the
`datetime` constructor then validates the day against the month/year and
rejects leap seconds (`%S` matches up to 61 but seconds above 59 raise). -/
def strptimeTS (s : String) : Option Timestamp :=
  match readTsField s.data 4 4 0 9999 with
  | none => none
  | some (y, r1) =>
    match r1 with
    | '-' :: r2 =>
      match readTsField r2 1 2 1 12 with
      | none => none
      | some (mo, r3) =>
        match r3 with
        | '-' :: r4 =>
          match readTsField r4 1 2 1 31 with
          | none => none
          | some (d, r5) =>
            match r5 with
            | c :: r6 =>
              if c = 'T' ∨ c = 't' then
                match readTsField r6 1 2 0 23 with
                | none => none
                | some (h, r7) =>
                  match r7 with
                  | ':' :: r8 =>
                    match readTsField r8 1 2 0 59 with
                    | none => none
                    | some (mi, r9) =>
                      match r9 with
                      | ':' :: r10 =>
                        match readTsField r10 1 2 0 61 with
                        | none => none
                        | some (sec, r11) =>
                          match r11 with
                          | '.' :: r12 =>
                            let fd := r12.takeWhile Char.isDigit
                            let rest := r12.dropWhile Char.isDigit
                            if 1 ≤ fd.length ∧ fd.length ≤ 6 ∧ rest = [] ∧
                                1 ≤ y ∧ d ≤ daysInMonth y mo ∧ sec ≤ 59 then
                              some ⟨y, mo, d, h, mi, sec, digitsVal fd * 10 ^ (6 - fd.length)⟩
                            else none
                          | _ => none
                      | _ => none
                  | _ => none
              else none
            | [] => none
        | _ => none
    | _ => none

/-- Python `int(...)` applied to a `Decimal` of value `q`: truncation toward
zero. -/
def pyTrunc (q : ℚ) : Int :=
  if 0 ≤ q then ⌊q⌋ else ⌈q⌉

/-- Python `Decimal.__mod__` with right operand `1`: the remainder carries
the sign of the dividend (`Decimal('-4.5') % 1 == Decimal('-0.5')`), unlike
Python's `int`/`float` `%`. -/
def decMod1 (q : ℚ) : ℚ := q - pyTrunc q

/-! ## Python `str`, `list`, `set` and dict primitives -/

mutual

/-- Python `str(v)`.  On a `str` this is the identity, which is the only case
the library exercises (the `B` tag value is boto's base64 `str`); other
variants are rendered with a simple bracketed notation abstracting CPython's
`repr`-based formatting, which no claim depends on. -/
def pyStr : Value → String
  | .null => "None"
  | .bool true => "True"
  | .bool false => "False"
  | .int n => toString n
  | .float q => toString q
  | .decimal q => toString q
  | .str s => s
  | .timestamp t =>
    toString t.year ++ "-" ++ toString t.month ++ "-" ++ toString t.day ++ " " ++
      toString t.hour ++ ":" ++ toString t.minute ++ ":" ++ toString t.second ++ "." ++
      toString t.microsecond
  | .list xs => "[" ++ pyStrSeq xs ++ "]"
  | .set xs => "\x7b" ++ pyStrSeq xs ++ "\x7d"
  | .dict fs => "\x7b" ++ pyStrFields fs ++ "\x7d"

def pyStrSeq : List Value → String
  | [] => ""
  | [x] => pyStr x
  | x :: xs => pyStr x ++ ", " ++ pyStrSeq xs

def pyStrFields : List (String × Value) → String
  | [] => ""
  | [(k, v)] => k ++ ": " ++ pyStr v
  | (k, v) :: fs => k ++ ": " ++ pyStr v ++ ", " ++ pyStrFields fs

end

/-- Hashability in Python: `list`, `set` and `dict` values are unhashable and
raise `TypeError` when inserted into a set; all scalars here are hashable. -/
def pyHashable : Value → Bool
  | .list _ => false
  | .set _ => false
  | .dict _ => false
  | _ => true

/-- Numeric view used by Python `==`: `bool` is an `int` subclass and
`int`/`float`/`Decimal` compare by exact numeric value. -/
def numView : Value → Option ℚ
  | .bool b => some (if b then 1 else 0)
  | .int n => some (n : ℚ)
  | .float q => some q
  | .decimal q => some q
  | _ => none

/-- Python `==` on hashable (scalar) values — the only comparisons a `set`
performs, since unhashable values cannot enter one. -/
def pyScalarEq (a b : Value) : Bool :=
  match numView a, numView b with
  | some x, some y => x == y
  | _, _ =>
    match a, b with
    | .str s, .str t => s == t
    | .timestamp s, .timestamp t => s == t
    | .null, .null => true
    | _, _ => false

def scalarMem (x : Value) : List Value → Bool
  | [] => false
  | y :: ys => pyScalarEq x y || scalarMem x ys

/-- First-occurrence deduplication, modelling `set(...)` construction.
CPython's set iteration order is unspecified; the model fixes insertion
order, and no claim depends on the order of set elements. -/
def dedupPyAux (seen : List Value) : List Value → List Value
  | [] => []
  | x :: xs =>
    if scalarMem x seen then dedupPyAux seen xs else x :: dedupPyAux (x :: seen) xs

def dedupPy (xs : List Value) : List Value := dedupPyAux [] xs

/-- Python `list(v)`: copies a list or set, iterates a string into its
characters and a dict into its keys; non-iterable values raise `TypeError`. -/
def pyList : Value → Except PyErr (List Value)
  | .list xs => .ok xs
  | .set xs => .ok xs
  | .str s => .ok (s.data.map (fun c => .str (String.singleton c)))
  | .dict fs => .ok (fs.map (fun p => Value.str p.1))
  | _ => .error .typeError

/-- Python `set(v)`: like `list(v)` but deduplicating, and raising
`TypeError` when an element is unhashable. -/
def pySet : Value → Except PyErr (List Value)
  | .list xs => if xs.all pyHashable then .ok (dedupPy xs) else .error .typeError
  | .set xs => .ok xs
  | .str s => .ok (dedupPy (s.data.map (fun c => .str (String.singleton c))))
  | .dict fs => .ok (dedupPy (fs.map (fun p => Value.str p.1)))
  | _ => .error .typeError

/-- `key in dict_`. -/
def containsKey (fs : List (String × Value)) (k : String) : Bool :=
  fs.any (fun p => p.1 == k)

/-- `dict_[key]` (never fails in the source: every subscript is guarded by a
`key in dict_` test). -/
def lookupD (fs : List (String × Value)) (k : String) : Value :=
  match fs.find? (fun p => p.1 == k) with
  | some p => p.2
  | none => .null

/-- `value is True`: identity with the boolean literal `True` (`1 is True`
is false in Python). -/
def isTrueLit : Value → Bool
  | .bool true => true
  | _ => false

/-! ## The decoder (`__parse_dynamodb_object`, `__object_hook`, `load_object`) -/

/-- Embedding of `DynamoDBUtils.__parse_dynamodb_object`: the ordered
presence-of-key dispatch over the tag keys
`BOOL, S, SS, N, B, NS, BS, M, L, NULL`.  Returns the pair
`(is_dynamodb_object, value)`; uncaught exceptions are `Except.error`. -/
def parseDynamodbObject (fs : List (String × Value)) : Except PyErr (Bool × Value) :=
  if containsKey fs "BOOL" then
    .ok (true, lookupD fs "BOOL")
  else if containsKey fs "S" then
    match lookupD fs "S" with
    | .str s =>
      match strptimeTS s with
      | some t => .ok (true, .timestamp t)
      | none => .ok (true, .str s)
    | _ => .error .typeError
  else if containsKey fs "SS" then
    match pyList (lookupD fs "SS") with
    | .ok xs => .ok (true, .list xs)
    | .error e => .error e
  else if containsKey fs "N" then
    match lookupD fs "N" with
    | .str s =>
      if reMatchNum s then
        match pyFloat s with
        | .ok q => .ok (true, .float q)
        | .error e => .error e
      else
        match pyInt s with
        | .ok n => .ok (true, .int n)
        | .error e => .error e
    | _ => .error .typeError
  else if containsKey fs "B" then
    .ok (true, .str (pyStr (lookupD fs "B")))
  else if containsKey fs "NS" then
    match pySet (lookupD fs "NS") with
    | .ok xs => .ok (true, .set xs)
    | .error e => .error e
  else if containsKey fs "BS" then
    match pySet (lookupD fs "BS") with
    | .ok xs => .ok (true, .set xs)
    | .error e => .error e
  else if containsKey fs "M" then
    .ok (true, lookupD fs "M")
  else if containsKey fs "L" then
    .ok (true, lookupD fs "L")
  else if containsKey fs "NULL" && isTrueLit (lookupD fs "NULL") then
    .ok (true, .null)
  else
    .ok (false, .null)

/-- The per-field transformation of `__object_hook`'s ordinary-object loop:
a string field is replaced by the timestamp parse when it succeeds
(`except ValueError: pass`), and a `Decimal` field is coerced with
`float(value) if value % 1 > 0 else int(value)`. -/
def hookField (v : Value) : Value :=
  match v with
  | .str s =>
    match strptimeTS s with
    | some t => .timestamp t
    | none => .str s
  | .decimal q =>
    if 0 < decMod1 q then .float q else .int (pyTrunc q)
  | v => v

/-- Embedding of `DynamoDBUtils.__object_hook`. -/
def objectHook (fs : List (String × Value)) : Except PyErr Value :=
  match parseDynamodbObject fs with
  | .error e => .error e
  | .ok (true, v) => .ok v
  | .ok (false, _) => .ok (.dict (fs.map (fun p => (p.1, hookField p.2))))

mutual

/-- The decoding pass of `DynamoDBUtils.load_object`:
`json.loads(json.dumps(obj), object_hook=...)` applies `__object_hook` to
every object bottom-up (post-order), so nested contents are decoded before
the enclosing object is classified.  Non-container values pass through
unchanged. -/
def decode : Value → Except PyErr Value
  | .list xs =>
    match decodeList xs with
    | .ok ws => .ok (.list ws)
    | .error e => .error e
  | .dict fs =>
    match decodeFields fs with
    | .ok fs' => objectHook fs'
    | .error e => .error e
  | v => .ok v

def decodeList : List Value → Except PyErr (List Value)
  | [] => .ok []
  | x :: xs =>
    match decode x with
    | .error e => .error e
    | .ok w =>
      match decodeList xs with
      | .error e => .error e
      | .ok ws => .ok (w :: ws)

def decodeFields : List (String × Value) → Except PyErr (List (String × Value))
  | [] => .ok []
  | (k, v) :: fs =>
    match decode v with
    | .error e => .error e
    | .ok w =>
      match decodeFields fs with
      | .error e => .error e
      | .ok fs' => .ok ((k, w) :: fs')

end

/-! ## The numeric normalizer (`__replace_decimals`) -/

mutual

/-- Embedding of `DynamoDBUtils.__replace_decimals`: recursively rewrites
lists and dicts, replaces a `Decimal` by `int(object_)` when
`object_ % 1 == 0` and by `float(object_)` otherwise, and returns every
other value unchanged. -/
def replaceDecimals : Value → Value
  | .list xs => .list (replaceDecimalsList xs)
  | .dict fs => .dict (replaceDecimalsFields fs)
  | .decimal q => if decMod1 q = 0 then .int (pyTrunc q) else .float q
  | v => v

def replaceDecimalsList : List Value → List Value
  | [] => []
  | x :: xs => replaceDecimals x :: replaceDecimalsList xs

def replaceDecimalsFields : List (String × Value) → List (String × Value)
  | [] => []
  | (k, v) :: fs => (k, replaceDecimals v) :: replaceDecimalsFields fs

end

/-! ## Spec-side definitions (from the specification's words) -/

/-- The tag recognition order of spec §4.1: `BOOL, S, SS, N, B, NS, BS, M, L,
NULL`, first match wins. -/
def tagOrder : List String :=
  ["BOOL", "S", "SS", "N", "B", "NS", "BS", "M", "L", "NULL"]

/-- The first tag key (in the spec's recognition order) present in the
object, if any. -/
def firstTag (fs : List (String × Value)) : Option String :=
  tagOrder.find? (containsKey fs)

/-- Whether `__object_hook` would treat the object by the "ordinary object"
path, i.e. `__parse_dynamodb_object` returns `is_dynamodb_object = False`. -/
def isOrdinaryPath (fs : List (String × Value)) : Bool :=
  match parseDynamodbObject fs with
  | .ok (false, _) => true
  | _ => false

/-- The spec's per-tag semantics (§4.1), written as an explicit dispatch on
the recognized tag: together with `firstTag` this is the "explicit,
documented, ordered match over a fixed enumerated tag set" of §9.  Claim C2
proves the source's nested key-presence tests equal to this dispatch, so the
presence of later tag keys is ignored. -/
def tagBranch (tg : String) (v : Value) : Except PyErr (Bool × Value) :=
  if tg = "BOOL" then .ok (true, v)
  else if tg = "S" then
    match v with
    | .str s =>
      match strptimeTS s with
      | some t => .ok (true, .timestamp t)
      | none => .ok (true, .str s)
    | _ => .error .typeError
  else if tg = "SS" then
    match pyList v with
    | .ok xs => .ok (true, .list xs)
    | .error e => .error e
  else if tg = "N" then
    match v with
    | .str s =>
      if reMatchNum s then
        match pyFloat s with
        | .ok q => .ok (true, .float q)
        | .error e => .error e
      else
        match pyInt s with
        | .ok n => .ok (true, .int n)
        | .error e => .error e
    | _ => .error .typeError
  else if tg = "B" then .ok (true, .str (pyStr v))
  else if tg = "NS" ∨ tg = "BS" then
    match pySet v with
    | .ok xs => .ok (true, .set xs)
    | .error e => .error e
  else if tg = "M" ∨ tg = "L" then .ok (true, v)
  else if tg = "NULL" then
    (if isTrueLit v then .ok (true, .null) else .ok (false, .null))
  else .ok (false, .null)

/-- A nonempty run of (ASCII) digits: one `\d+` group of the spec's numeric
grammar `^-?\d+(\.\d+)?$`. -/
def isDigits (cs : List Char) : Bool :=
  !cs.isEmpty && cs.all Char.isDigit

/-- The characters of a string of the spec's numeric grammar
`^-?\d+(\.\d+)?$` (§6), given by its unique decomposition: optional minus,
the integer digit group, and the optional fractional digit group. -/
def specNumChars (neg : Bool) (ip : List Char) (fp : Option (List Char)) : List Char :=
  (cond neg ['-'] []) ++ ip ++ (match fp with | some f => '.' :: f | none => [])

/-- A string of the spec's numeric grammar `^-?\d+(\.\d+)?$`. -/
def specNumRender (neg : Bool) (ip : List Char) (fp : Option (List Char)) : String :=
  ⟨specNumChars neg ip fp⟩

/-- The rational number denoted by a string of the spec's numeric grammar. -/
def specNumValue (neg : Bool) (ip : List Char) (fp : Option (List Char)) : ℚ :=
  (cond neg (-1) 1) *
    ((digitsVal ip : ℚ) + match fp with | some f => (digitsVal f : ℚ) / 10 ^ f.length | none => 0)

/-- Values the spec's §4.2 calls "any other scalar" for the normalizer:
not a Sequence (`list`), not a Mapping (`dict`), not a `Decimal`. -/
def isOtherScalar : Value → Bool
  | .list _ => false
  | .dict _ => false
  | .decimal _ => false
  | _ => true

/-! ## Helper lemmas: list splitting -/

theorem dropWhile_eq_self_of_all {α} (p : α → Bool) (cs : List α) (h : ∀ c ∈ cs, p c = false) :
    cs.dropWhile p = cs := by
  cases cs with
  | nil => rfl
  | cons c t => simp [List.dropWhile_cons, h c (by simp)]

theorem stripWs_eq_self {cs : List Char} (h : ∀ c ∈ cs, isPyWs c = false) : stripWs cs = cs := by
  unfold stripWs
  rw [dropWhile_eq_self_of_all _ _ h, dropWhile_eq_self_of_all, List.reverse_reverse]
  intro c hc
  exact h c (by simpa using hc)

theorem takeWhile_digits_append {ds rest : List Char} (hds : ∀ c ∈ ds, c.isDigit = true)
    (hrest : ∀ c, rest.head? = some c → c.isDigit = false) :
    (ds ++ rest).takeWhile Char.isDigit = ds := by
  induction ds with
  | nil =>
    cases rest with
    | nil => rfl
    | cons c t => simp [List.takeWhile_cons, hrest c rfl]
  | cons c t ih =>
    simp [List.takeWhile_cons, hds c (by simp)]
    exact ih (fun x hx => hds x (by simp [hx]))

theorem dropWhile_digits_append {ds rest : List Char} (hds : ∀ c ∈ ds, c.isDigit = true)
    (hrest : ∀ c, rest.head? = some c → c.isDigit = false) :
    (ds ++ rest).dropWhile Char.isDigit = rest := by
  induction ds with
  | nil =>
    cases rest with
    | nil => rfl
    | cons c t => simp [List.dropWhile_cons, hrest c rfl]
  | cons c t ih =>
    simp [List.dropWhile_cons, hds c (by simp)]
    exact ih (fun x hx => hds x (by simp [hx]))

theorem getLast?_digit {cs : List Char} (hne : cs ≠ []) (hall : ∀ c ∈ cs, c.isDigit = true) :
    ∃ c, cs.getLast? = some c ∧ c.isDigit = true := by
  refine ⟨cs.getLast hne, ?_, hall _ (List.getLast_mem hne)⟩
  exact List.getLast?_eq_getLast cs hne

/-! ## Helper lemmas: truncation arithmetic -/

theorem pyTrunc_intCast (n : Int) : pyTrunc (n : ℚ) = n := by
  unfold pyTrunc
  split <;> simp

theorem pyTrunc_of_den_eq_one {q : ℚ} (h : q.den = 1) : pyTrunc q = q.num := by
  have hq : (q.num : ℚ) = q := (Rat.den_eq_one_iff q).mp h
  calc pyTrunc q = pyTrunc (q.num : ℚ) := by rw [hq]
    _ = q.num := pyTrunc_intCast _

theorem decMod1_eq_zero_iff (q : ℚ) : decMod1 q = 0 ↔ q.den = 1 := by
  constructor
  · intro h
    have hq : q = (pyTrunc q : ℚ) := by
      have := sub_eq_zero.mp h
      exact this
    rw [hq]
    exact Rat.den_intCast _
  · intro h
    unfold decMod1
    rw [pyTrunc_of_den_eq_one h, (Rat.den_eq_one_iff q).mp h, sub_self]

theorem decMod1_pos_iff (q : ℚ) : 0 < decMod1 q ↔ 0 < q ∧ q.den ≠ 1 := by
  by_cases h : 0 ≤ q
  · have htr : pyTrunc q = ⌊q⌋ := by simp [pyTrunc, h]
    have hfract : decMod1 q = Int.fract q := by
      unfold decMod1
      rw [htr]
      exact Int.self_sub_floor q
    constructor
    · intro hpos
      have hne : decMod1 q ≠ 0 := ne_of_gt hpos
      have hden : q.den ≠ 1 := fun hd => hne ((decMod1_eq_zero_iff q).mpr hd)
      have hq0 : q ≠ 0 := by
        intro h0
        exact hden (by rw [h0]; rfl)
      exact ⟨lt_of_le_of_ne h (Ne.symm hq0), hden⟩
    · rintro ⟨-, hden⟩
      have hne : decMod1 q ≠ 0 := fun h0 => hden ((decMod1_eq_zero_iff q).mp h0)
      have hnonneg : 0 ≤ decMod1 q := by
        rw [hfract]
        exact Int.fract_nonneg q
      exact lt_of_le_of_ne hnonneg (Ne.symm hne)
  · have htr : pyTrunc q = ⌈q⌉ := by simp [pyTrunc, h]
    have hle : decMod1 q ≤ 0 := by
      simp only [decMod1, htr, sub_nonpos]
      exact Int.le_ceil q
    constructor
    · intro hpos
      exact absurd hpos (not_lt_of_le hle)
    · rintro ⟨hq, -⟩
      exact absurd (le_of_lt hq) h

/-! ## The dispatch characterization (claim C2) -/

theorem parse_eq_tagBranch (fs : List (String × Value)) :
    parseDynamodbObject fs =
      (match firstTag fs with
       | none => Except.ok (false, Value.null)
       | some tg => tagBranch tg (lookupD fs tg)) := by
  by_cases h1 : containsKey fs "BOOL"
  · simp [parseDynamodbObject, firstTag, tagOrder, tagBranch, h1]
  by_cases h2 : containsKey fs "S"
  · simp [parseDynamodbObject, firstTag, tagOrder, tagBranch, h1, h2]
  by_cases h3 : containsKey fs "SS"
  · simp [parseDynamodbObject, firstTag, tagOrder, tagBranch, h1, h2, h3]
  by_cases h4 : containsKey fs "N"
  · simp [parseDynamodbObject, firstTag, tagOrder, tagBranch, h1, h2, h3, h4]
  by_cases h5 : containsKey fs "B"
  · simp [parseDynamodbObject, firstTag, tagOrder, tagBranch, h1, h2, h3, h4, h5]
  by_cases h6 : containsKey fs "NS"
  · simp [parseDynamodbObject, firstTag, tagOrder, tagBranch, h1, h2, h3, h4, h5, h6]
  by_cases h7 : containsKey fs "BS"
  · simp [parseDynamodbObject, firstTag, tagOrder, tagBranch, h1, h2, h3, h4, h5, h6, h7]
  by_cases h8 : containsKey fs "M"
  · simp [parseDynamodbObject, firstTag, tagOrder, tagBranch, h1, h2, h3, h4, h5, h6, h7, h8]
  by_cases h9 : containsKey fs "L"
  · simp [parseDynamodbObject, firstTag, tagOrder, tagBranch, h1, h2, h3, h4, h5, h6, h7, h8, h9]
  by_cases h10 : containsKey fs "NULL"
  · by_cases h11 : isTrueLit (lookupD fs "NULL") <;>
      simp [parseDynamodbObject, firstTag, tagOrder, tagBranch,
        h1, h2, h3, h4, h5, h6, h7, h8, h9, h10, h11]
  · simp [parseDynamodbObject, firstTag, tagOrder, tagBranch,
      h1, h2, h3, h4, h5, h6, h7, h8, h9, h10]

theorem tagBranch_first9_ok_true {tg : String} (htg : tg ∈ tagOrder.take 9) (v : Value)
    {b : Bool} {w : Value} (h : tagBranch tg v = .ok (b, w)) : b = true := by
  simp [tagOrder] at htg
  rcases htg with rfl | rfl | rfl | rfl | rfl | rfl | rfl | rfl | rfl <;>
    · unfold tagBranch at h
      simp only [reduceIte, String.reduceEq] at h
      repeat' split at h
      all_goals first
      | (cases h <;> rfl)
      | simp_all

/-- C2: for every object (in particular one containing more than one tag
key), `__parse_dynamodb_object` classifies it by the first matching key in
exactly the order `BOOL, S, SS, N, B, NS, BS, M, L, NULL` — the result
depends only on that first key and its value, so the presence of later tag
keys is ignored — and an object containing at least one of the first nine
tag keys is never treated by the ordinary-object path. -/
theorem C2_ordered_tag_dispatch :
    (∀ fs, parseDynamodbObject fs =
      (match firstTag fs with
       | none => Except.ok (false, Value.null)
       | some tg => tagBranch tg (lookupD fs tg)))
    ∧ (∀ fs, (tagOrder.take 9).any (containsKey fs) = true → isOrdinaryPath fs = false) := by
  refine ⟨parse_eq_tagBranch, ?_⟩
  intro fs h
  unfold isOrdinaryPath
  split
  · next v heq =>
    exfalso
    rw [parse_eq_tagBranch] at heq
    cases hft : firstTag fs with
    | none =>
      obtain ⟨x, hx, hpx⟩ := List.any_eq_true.mp h
      exact (List.find?_eq_none.mp hft x (List.take_subset _ _ hx)) hpx
    | some tg =>
      rw [hft] at heq
      have hsome : ((tagOrder.take 9).find? (containsKey fs)).isSome := by
        rw [List.find?_isSome]
        obtain ⟨x, hx, hpx⟩ := List.any_eq_true.mp h
        exact ⟨x, hx, hpx⟩
      obtain ⟨tg0, htg0⟩ := Option.isSome_iff_exists.mp hsome
      have hft0 : firstTag fs = some tg0 := by
        unfold firstTag
        have hsplit : tagOrder = tagOrder.take 9 ++ ["NULL"] := by decide
        rw [hsplit, List.find?_append, htg0]
        rfl
      rw [hft] at hft0
      cases hft0
      have := tagBranch_first9_ok_true (List.mem_of_find?_eq_some htg0) (lookupD fs tg) heq
      cases this
  · rfl

theorem C2_ordered_tag_dispatch_witness :
    isOrdinaryPath [("NULL", Value.bool false), ("S", Value.str "x")] = false :=
  C2_ordered_tag_dispatch.2 [("NULL", Value.bool false), ("S", Value.str "x")] (by decide)

/-! ## Claims C7, C4, C1 -/

/-- C7: `decode({"NULL": true})` yields Null, while `decode({"NULL": false})`
is not treated as a tagged attribute-value: it falls through to the
ordinary-object path and yields the mapping `{"NULL": false}`, not Null. -/
theorem C7_null_true_only :
    decode (.dict [("NULL", .bool true)]) = .ok .null
    ∧ decode (.dict [("NULL", .bool false)]) = .ok (.dict [("NULL", .bool false)])
    ∧ decode (.dict [("NULL", .bool false)]) ≠ .ok .null
    ∧ isOrdinaryPath [("NULL", .bool false)] = true := by
  refine ⟨?_, ?_, ?_, ?_⟩ <;>
    simp [decode, decodeFields, objectHook, parseDynamodbObject, containsKey, lookupD,
      isTrueLit, hookField, isOrdinaryPath]

/-- C4 counterexample: the claim says decode never raises for a malformed
attribute-value; but `{"N": "abc"}` reaches `int("abc")`, whose `ValueError`
is not caught, so the decode pass fails instead of returning a value. -/
theorem C4_counterexample :
    decode (.dict [("N", .str "abc")]) = .error .valueError := by
  have hm : reMatchNum "abc" = false := by decide
  have hi : pyInt "abc" = .error .valueError := by rfl
  simp [decode, decodeFields, objectHook, parseDynamodbObject, containsKey, lookupD, hm, hi]

/-- C4 amended: an object with several tag keys degrades silently via the
first matching branch, and a failed timestamp parse of a string `S` value
degrades silently to the string; but a tag value of unexpected type can
raise — `{"S": 5}` raises `TypeError` from `strptime` (only `ValueError` is
caught), and `{"N": "abc"}` raises `ValueError` from `int(...)`. -/
theorem C4_amended_exceptions :
    decode (.dict [("S", .int 5)]) = .error .typeError
    ∧ decode (.dict [("N", .str "abc")]) = .error .valueError
    ∧ decode (.dict [("BOOL", .bool true), ("S", .int 5)]) = .ok (.bool true)
    ∧ decode (.dict [("S", .str "hello")]) = .ok (.str "hello") := by
  have hm : reMatchNum "abc" = false := by decide
  have hi : pyInt "abc" = .error .valueError := by rfl
  have hs : strptimeTS "hello" = none := by decide
  refine ⟨?_, ?_, ?_, ?_⟩ <;>
    simp [decode, decodeFields, objectHook, parseDynamodbObject, containsKey, lookupD,
      hm, hi, hs]

theorem decodeList_strs (ss : List String) :
    decodeList (ss.map Value.str) = .ok (ss.map Value.str) := by
  induction ss with
  | nil => simp [decodeList]
  | cons s t ih => simp [decodeList, decode, ih]

/-- C1 counterexample: `decode({"SS": ["a","a","b"]})` yields the *list*
`["a","a","b"]` — the `SS` branch is `list(dict_['SS'])`, not `set(...)` —
so the result is not the two-element set the claim describes: duplicates are
preserved. -/
theorem C1_counterexample :
    decode (.dict [("SS", .list [.str "a", .str "a", .str "b"])])
      = .ok (.list [.str "a", .str "a", .str "b"])
    ∧ Value.list [.str "a", .str "a", .str "b"] ≠ Value.set [.str "a", .str "b"]
    ∧ Value.list [.str "a", .str "a", .str "b"] ≠ Value.set [.str "b", .str "a"] := by
  refine ⟨?_, by simp, by simp⟩
  have h : decodeList ([ "a", "a", "b" ].map Value.str) = .ok ([ "a", "a", "b" ].map Value.str) :=
    decodeList_strs _
  simp at h
  simp [decode, decodeFields, objectHook, parseDynamodbObject, containsKey, lookupD, pyList, h]

/-- C1 amended: for every list of strings `ss`, the `SS` branch converts the
value with `list(...)`: `decode({"SS": ss})` yields the same list, in order,
duplicates preserved (not a set). -/
theorem C1_amended_list (ss : List String) :
    decode (.dict [("SS", .list (ss.map Value.str))]) = .ok (.list (ss.map Value.str)) := by
  simp [decode, decodeFields, objectHook, parseDynamodbObject, containsKey, lookupD, pyList,
    decodeList_strs ss]

/-! ## Claim C3: Decimal coercion in the ordinary-object path -/

theorem pyTrunc_neg_nine_halves : pyTrunc (-9/2 : ℚ) = -4 := by
  norm_num [pyTrunc, Int.ceil_eq_iff]

theorem hookField_decimal_neg_nine_halves :
    hookField (.decimal (-9/2 : ℚ)) = .int (-4) := by
  have h : ¬ (0 < decMod1 (-9/2 : ℚ)) := by
    unfold decMod1
    rw [pyTrunc_neg_nine_halves]
    norm_num
  simp [hookField, h, pyTrunc_neg_nine_halves]

/-- C3 counterexample: the claim says every negative Decimal with a nonzero
fractional part is coerced to Float; but in `__object_hook`'s ordinary path
the test is `value % 1 > 0`, and Python's `Decimal % 1` keeps the dividend's
sign, so `Decimal('-4.5') % 1 == Decimal('-0.5') > 0` is false and the field
is truncated to the Int `-4` instead. -/
theorem C3_counterexample :
    decode (.dict [("a", .decimal (-9/2 : ℚ))]) = .ok (.dict [("a", .int (-4))])
    ∧ decode (.dict [("a", .decimal (-9/2 : ℚ))]) ≠ .ok (.dict [("a", .float (-9/2 : ℚ))]) := by
  have hcompute : decode (.dict [("a", .decimal (-9/2 : ℚ))]) = .ok (.dict [("a", .int (-4))]) := by
    simp [decode, decodeFields, objectHook, parseDynamodbObject, containsKey, lookupD,
      hookField_decimal_neg_nine_halves]
  refine ⟨hcompute, ?_⟩
  rw [hcompute]
  simp

/-- C3 amended: in the ordinary-object path a Decimal field is coerced to
Float exactly when it is positive with a nonzero fractional part (the
source's test `value % 1 > 0` under Decimal remainder semantics, which keep
the dividend's sign); every other Decimal — integral or negative — is
truncated toward zero to an Int.  In particular `Decimal('-4.5')` becomes
the Int `-4`, not a Float. -/
theorem C3_amended_decimal_coercion (k : String) (q : ℚ) (hk : k ∉ tagOrder) :
    decode (.dict [(k, .decimal q)]) =
      .ok (.dict [(k, if 0 < q ∧ q.den ≠ 1 then .float q else .int (pyTrunc q))]) := by
  simp only [tagOrder, List.mem_cons, List.not_mem_nil, or_false, not_or] at hk
  obtain ⟨hk1, hk2, hk3, hk4, hk5, hk6, hk7, hk8, hk9, hk10⟩ := hk
  have hdec : decode (.decimal q) = .ok (.decimal q) := by simp [decode]
  simp [decode, decodeFields, objectHook, parseDynamodbObject, containsKey, lookupD,
    hk1, hk2, hk3, hk4, hk5, hk6, hk7, hk8, hk9, hk10, hookField, decMod1_pos_iff]

theorem C3_amended_decimal_coercion_witness :
    decode (.dict [("a", .decimal (-9/2 : ℚ))])
      = .ok (.dict [("a", if 0 < (-9/2 : ℚ) ∧ (-9/2 : ℚ).den ≠ 1
          then .float (-9/2 : ℚ) else .int (pyTrunc (-9/2 : ℚ)))]) :=
  C3_amended_decimal_coercion "a" (-9/2 : ℚ) (by decide)

/-! ## Claims C8 and C10: the numeric normalizer -/

theorem replaceDecimalsList_eq_map (xs : List Value) :
    replaceDecimalsList xs = xs.map replaceDecimals := by
  induction xs with
  | nil => simp [replaceDecimalsList]
  | cons x t ih => simp [replaceDecimalsList, ih]

theorem replaceDecimalsFields_eq_map (fs : List (String × Value)) :
    replaceDecimalsFields fs = fs.map (fun p => (p.1, replaceDecimals p.2)) := by
  induction fs with
  | nil => simp [replaceDecimalsFields]
  | cons p t ih =>
    cases p
    simp [replaceDecimalsFields, ih]

theorem replaceDecimals_decimal (q : ℚ) :
    replaceDecimals (.decimal q) = (if q.den = 1 then .int q.num else .float q) := by
  by_cases hd : q.den = 1
  · simp [replaceDecimals, (decMod1_eq_zero_iff q).mpr hd, hd, pyTrunc_of_den_eq_one hd]
  · have hne : ¬ decMod1 q = 0 := fun h => hd ((decMod1_eq_zero_iff q).mp h)
    simp [replaceDecimals, hne, hd]

/-- C8: the normalizer maps a Sequence to a Sequence of the same length with
each element normalized in order, a Mapping to a Mapping with the same keys
and each value normalized, a Decimal to an Int exactly when its fractional
remainder `value % 1` is zero (equivalently, its denominator is 1) and to a
Float otherwise, and returns every other scalar unchanged; in particular
`normalize(Decimal('4.0'))` is the Int `4` and `normalize(Decimal('4.5'))`
the Float `4.5`. -/
theorem C8_normalize_cases :
    (∀ xs, replaceDecimals (.list xs) = .list (xs.map replaceDecimals)
        ∧ (xs.map replaceDecimals).length = xs.length)
    ∧ (∀ fs, replaceDecimals (.dict fs) = .dict (fs.map (fun p => (p.1, replaceDecimals p.2)))
        ∧ (fs.map (fun p => (p.1, replaceDecimals p.2))).map Prod.fst = fs.map Prod.fst)
    ∧ (∀ q, (replaceDecimals (.decimal q) = .int q.num ↔ decMod1 q = 0)
        ∧ (decMod1 q = 0 ↔ q.den = 1)
        ∧ (q.den ≠ 1 → replaceDecimals (.decimal q) = .float q))
    ∧ (∀ v, isOtherScalar v = true → replaceDecimals v = v)
    ∧ replaceDecimals (.decimal (4 : ℚ)) = .int 4
    ∧ replaceDecimals (.decimal (9/2 : ℚ)) = .float (9/2 : ℚ) := by
  refine ⟨?_, ?_, ?_, ?_, ?_, ?_⟩
  · intro xs
    exact ⟨by simp [replaceDecimals, replaceDecimalsList_eq_map], by simp⟩
  · intro fs
    exact ⟨by simp [replaceDecimals, replaceDecimalsFields_eq_map], by simp⟩
  · intro q
    refine ⟨?_, decMod1_eq_zero_iff q, ?_⟩
    · constructor
      · intro h
        by_contra hne
        have hd : q.den ≠ 1 := fun hd => hne ((decMod1_eq_zero_iff q).mpr hd)
        rw [replaceDecimals_decimal] at h
        simp [hd] at h
      · intro h
        have hd := (decMod1_eq_zero_iff q).mp h
        rw [replaceDecimals_decimal]
        simp [hd]
    · intro hd
      rw [replaceDecimals_decimal]
      simp [hd]
  · intro v hv
    cases v <;> simp_all [replaceDecimals, isOtherScalar]
  · rw [replaceDecimals_decimal]
    norm_num
  · rw [replaceDecimals_decimal]
    norm_num

theorem C8_normalize_cases_witness :
    replaceDecimals (.str "x") = .str "x" ∧ replaceDecimals (.decimal (9/2 : ℚ)) = .float (9/2 : ℚ) :=
  ⟨C8_normalize_cases.2.2.2.1 (.str "x") rfl, C8_normalize_cases.2.2.2.2.2⟩

mutual

theorem replaceDecimals_idem : ∀ v, replaceDecimals (replaceDecimals v) = replaceDecimals v
  | .null => by simp [replaceDecimals]
  | .bool b => by simp [replaceDecimals]
  | .int n => by simp [replaceDecimals]
  | .float q => by simp [replaceDecimals]
  | .str s => by simp [replaceDecimals]
  | .timestamp t => by simp [replaceDecimals]
  | .set xs => by simp [replaceDecimals]
  | .decimal q => by
    by_cases h : decMod1 q = 0 <;> simp [replaceDecimals, h]
  | .list xs => by
    simp [replaceDecimals, replaceDecimalsList_idem xs]
  | .dict fs => by
    simp [replaceDecimals, replaceDecimalsFields_idem fs]

theorem replaceDecimalsList_idem :
    ∀ xs, replaceDecimalsList (replaceDecimalsList xs) = replaceDecimalsList xs
  | [] => by simp [replaceDecimalsList]
  | x :: t => by
    simp [replaceDecimalsList, replaceDecimals_idem x, replaceDecimalsList_idem t]

theorem replaceDecimalsFields_idem :
    ∀ fs, replaceDecimalsFields (replaceDecimalsFields fs) = replaceDecimalsFields fs
  | [] => by simp [replaceDecimalsFields]
  | (k, v) :: t => by
    simp [replaceDecimalsFields, replaceDecimals_idem v, replaceDecimalsFields_idem t]

end

/-- C10: the normalizer is idempotent — its output contains no Decimal
leaves, so a second pass leaves every leaf and container unchanged. -/
theorem C10_normalize_idempotent (v : Value) :
    replaceDecimals (replaceDecimals v) = replaceDecimals v :=
  replaceDecimals_idem v

/-! ## Claim C5: the numeric string grammar for `N` -/

theorem isPyWs_of_isDigit {c : Char} (h : c.isDigit = true) : isPyWs c = false := by
  by_contra hw
  rw [Bool.not_eq_false] at hw
  simp only [isPyWs, Bool.or_eq_true, decide_eq_true_eq] at hw
  rcases hw with (((((rfl | rfl) | rfl) | rfl) | rfl) | rfl) <;> exact absurd h (by decide)

theorem isDigit_ne_special {c : Char} (h : c.isDigit = true) :
    c ≠ '-' ∧ c ≠ '+' ∧ c ≠ '.' ∧ c ≠ '\n' := by
  refine ⟨?_, ?_, ?_, ?_⟩ <;> (rintro rfl; exact absurd h (by decide))

theorem splitSign_minus (t : List Char) : splitSign ('-' :: t) = (true, t) := by
  simp [splitSign]

theorem splitSign_digit {c : Char} (h : c.isDigit = true) (t : List Char) :
    splitSign (c :: t) = (false, c :: t) := by
  have h2 := isDigit_ne_special h
  simp [splitSign, h2.1, h2.2.1]

theorem stripMinus_minus (t : List Char) : stripMinus ('-' :: t) = t := by
  simp [stripMinus]

theorem stripMinus_digit {c : Char} (h : c.isDigit = true) (t : List Char) :
    stripMinus (c :: t) = c :: t := by
  simp [stripMinus, (isDigit_ne_special h).1]

theorem isDigits_parts {cs : List Char} (h : isDigits cs = true) :
    cs ≠ [] ∧ ∀ c ∈ cs, c.isDigit = true := by
  simp only [isDigits, Bool.and_eq_true, Bool.not_eq_true', List.isEmpty_eq_false_iff_exists_mem,
    List.all_eq_true] at h
  rcases h with ⟨⟨x, hx⟩, hall⟩
  exact ⟨List.ne_nil_of_mem hx, hall⟩

theorem specNumChars_no_ws {neg : Bool} {ip : List Char} {fp : Option (List Char)}
    (hip : ∀ c ∈ ip, c.isDigit = true)
    (hfp : ∀ f, fp = some f → ∀ c ∈ f, c.isDigit = true) :
    ∀ c ∈ specNumChars neg ip fp, isPyWs c = false := by
  intro c hc
  unfold specNumChars at hc
  rcases List.mem_append.mp hc with h1 | h2
  · rcases List.mem_append.mp h1 with h3 | h4
    · cases neg <;> simp at h3
      subst h3
      decide
    · exact isPyWs_of_isDigit (hip c h4)
  · cases fp with
    | none => simp at h2
    | some f =>
      simp at h2
      rcases h2 with rfl | hf
      · decide
      · exact isPyWs_of_isDigit (hfp f rfl c hf)


theorem specNumRender_data (neg : Bool) (ip : List Char) (fp : Option (List Char)) :
    (specNumRender neg ip fp).data = specNumChars neg ip fp := rfl

theorem takeWhile_digits_all {ds : List Char} (h : ∀ c ∈ ds, c.isDigit = true) :
    ds.takeWhile Char.isDigit = ds := by
  have h2 := @takeWhile_digits_append ds [] h (fun c hc => by simp at hc)
  simpa using h2

theorem dropWhile_digits_all {ds : List Char} (h : ∀ c ∈ ds, c.isDigit = true) :
    ds.dropWhile Char.isDigit = [] := by
  have h2 := @dropWhile_digits_append ds [] h (fun c hc => by simp at hc)
  simpa using h2

theorem pyIntCore_digits (neg : Bool) {ds : List Char} (hne : ds ≠ [])
    (hall : ∀ c ∈ ds, c.isDigit = true) :
    pyIntCore neg ds = .ok ((cond neg (-1) 1) * (digitsVal ds : Int)) := by
  simp [pyIntCore, hne, List.all_eq_true.mpr hall]

theorem pyFloatCore_render (neg : Bool) {ip f : List Char}
    (hipne : ip ≠ []) (hipall : ∀ c ∈ ip, c.isDigit = true)
    (hfall : ∀ c ∈ f, c.isDigit = true) :
    pyFloatCore neg (ip ++ '.' :: f) =
      .ok ((cond neg (-1) 1 : ℚ) * ((digitsVal ip : ℚ) + (digitsVal f : ℚ) / 10 ^ f.length)) := by
  have htake : (ip ++ '.' :: f).takeWhile Char.isDigit = ip :=
    takeWhile_digits_append hipall (fun c hc => by simp at hc; subst hc; decide)
  have hdrop : (ip ++ '.' :: f).dropWhile Char.isDigit = '.' :: f :=
    dropWhile_digits_append hipall (fun c hc => by simp at hc; subst hc; decide)
  simp [pyFloatCore, htake, hdrop, List.all_eq_true.mpr hfall, hipne]

theorem pyInt_render_none {neg : Bool} {ip : List Char} (hip : isDigits ip = true) :
    pyInt (specNumRender neg ip none) = .ok ((cond neg (-1) 1) * (digitsVal ip : Int)) := by
  obtain ⟨hne, hall⟩ := isDigits_parts hip
  have hws : ∀ c ∈ specNumChars neg ip none, isPyWs c = false :=
    specNumChars_no_ws hall (fun g hg => by cases hg)
  have hstrip : stripWs (specNumChars neg ip none) = specNumChars neg ip none :=
    stripWs_eq_self hws
  show pyIntChars (specNumChars neg ip none) = _
  unfold pyIntChars
  rw [hstrip]
  cases neg
  · have hchars : specNumChars false ip none = ip := by simp [specNumChars]
    rw [hchars]
    cases ip with
    | nil => exact absurd rfl hne
    | cons d t =>
      rw [splitSign_digit (hall d (by simp)) t]
      exact pyIntCore_digits false hne hall
  · have hchars : specNumChars true ip none = '-' :: ip := by simp [specNumChars]
    rw [hchars, splitSign_minus]
    exact pyIntCore_digits true hne hall

theorem pyFloat_render_some {neg : Bool} {ip f : List Char}
    (hip : isDigits ip = true) (hf : isDigits f = true) :
    pyFloat (specNumRender neg ip (some f)) =
      .ok ((cond neg (-1) 1 : ℚ) * ((digitsVal ip : ℚ) + (digitsVal f : ℚ) / 10 ^ f.length)) := by
  obtain ⟨hipne, hipall⟩ := isDigits_parts hip
  obtain ⟨hfne, hfall⟩ := isDigits_parts hf
  have hws : ∀ c ∈ specNumChars neg ip (some f), isPyWs c = false :=
    specNumChars_no_ws hipall (fun g hg => by cases hg; exact hfall)
  have hstrip : stripWs (specNumChars neg ip (some f)) = specNumChars neg ip (some f) :=
    stripWs_eq_self hws
  show pyFloatChars (specNumChars neg ip (some f)) = _
  unfold pyFloatChars
  rw [hstrip]
  cases neg
  · have hchars : specNumChars false ip (some f) = ip ++ '.' :: f := by simp [specNumChars]
    rw [hchars]
    cases ip with
    | nil => exact absurd rfl hipne
    | cons d t =>
      rw [show (d :: t) ++ '.' :: f = d :: (t ++ '.' :: f) from rfl,
        splitSign_digit (hipall d (by simp)) (t ++ '.' :: f)]
      exact pyFloatCore_render false hipne hipall hfall
  · have hchars : specNumChars true ip (some f) = '-' :: (ip ++ '.' :: f) := by
      simp [specNumChars]
    rw [hchars, splitSign_minus]
    exact pyFloatCore_render true hipne hipall hfall

theorem fracLitChars_render_some {neg : Bool} {ip f : List Char}
    (hip : isDigits ip = true) (hf : isDigits f = true) :
    fracLitChars (specNumChars neg ip (some f)) = true := by
  obtain ⟨hipne, hipall⟩ := isDigits_parts hip
  obtain ⟨hfne, hfall⟩ := isDigits_parts hf
  have hstrip : stripMinus (specNumChars neg ip (some f)) = ip ++ '.' :: f := by
    cases neg
    · have hchars : specNumChars false ip (some f) = ip ++ '.' :: f := by simp [specNumChars]
      rw [hchars]
      cases ip with
      | nil => exact absurd rfl hipne
      | cons d t =>
        exact stripMinus_digit (hipall d (by simp)) (t ++ '.' :: f)
    · have hchars : specNumChars true ip (some f) = '-' :: (ip ++ '.' :: f) := by
        simp [specNumChars]
      rw [hchars, stripMinus_minus]
  have htake : (ip ++ '.' :: f).takeWhile Char.isDigit = ip :=
    takeWhile_digits_append hipall (fun c hc => by simp at hc; subst hc; decide)
  have hdrop : (ip ++ '.' :: f).dropWhile Char.isDigit = '.' :: f :=
    dropWhile_digits_append hipall (fun c hc => by simp at hc; subst hc; decide)
  simp [fracLitChars, hstrip, htake, hdrop, hipne, takeWhile_digits_all hfall,
    dropWhile_digits_all hfall, hfne]

theorem fracLitChars_render_none {neg : Bool} {ip : List Char}
    (hip : isDigits ip = true) :
    fracLitChars (specNumChars neg ip none) = false := by
  obtain ⟨hipne, hipall⟩ := isDigits_parts hip
  have hstrip : stripMinus (specNumChars neg ip none) = ip := by
    cases neg
    · have hchars : specNumChars false ip none = ip := by simp [specNumChars]
      rw [hchars]
      cases ip with
      | nil => exact absurd rfl hipne
      | cons d t => exact stripMinus_digit (hipall d (by simp)) t
    · have hchars : specNumChars true ip none = '-' :: ip := by simp [specNumChars]
      rw [hchars, stripMinus_minus]
  simp [fracLitChars, hstrip, dropWhile_digits_all hipall]

theorem reMatchNum_render_some {neg : Bool} {ip f : List Char}
    (hip : isDigits ip = true) (hf : isDigits f = true) :
    reMatchNum (specNumRender neg ip (some f)) = true := by
  unfold reMatchNum
  rw [specNumRender_data]
  simp [fracLitChars_render_some hip hf]

theorem reMatchNum_render_none {neg : Bool} {ip : List Char}
    (hip : isDigits ip = true) :
    reMatchNum (specNumRender neg ip none) = false := by
  obtain ⟨hipne, hipall⟩ := isDigits_parts hip
  obtain ⟨c, hc, hcd⟩ := getLast?_digit hipne hipall
  have hlast : (specNumChars neg ip none).getLast? = some c := by
    unfold specNumChars
    simp [List.getLast?_append, hc]
  unfold reMatchNum
  rw [specNumRender_data, hlast]
  simp [fracLitChars_render_none hip, (isDigit_ne_special hcd).2.2.2]

/-- Evaluation of the `N` branch of `decode` on any string of the spec's
numeric grammar: the fractional form goes through `float(...)`, the integer
form through `int(...)`. -/
theorem decodeN_render (neg : Bool) (ip : List Char) (fp : Option (List Char))
    (hip : isDigits ip = true) (hfp : ∀ f, fp = some f → isDigits f = true) :
    decode (.dict [("N", .str (specNumRender neg ip fp))]) =
      .ok (match fp with
           | some f => .float ((cond neg (-1) 1 : ℚ) *
               ((digitsVal ip : ℚ) + (digitsVal f : ℚ) / 10 ^ f.length))
           | none => .int ((cond neg (-1) 1) * (digitsVal ip : Int))) := by
  cases fp with
  | none =>
    simp [decode, decodeFields, objectHook, parseDynamodbObject, containsKey, lookupD,
      reMatchNum_render_none hip, pyInt_render_none hip]
  | some f =>
    simp [decode, decodeFields, objectHook, parseDynamodbObject, containsKey, lookupD,
      reMatchNum_render_some hip (hfp f rfl), pyFloat_render_some hip (hfp f rfl)]

/-- C5: for every object tagged `N` whose value is a string of the grammar
`^-?\d+(\.\d+)?$` (presented by its unique decomposition into sign, integer
digits, and optional fractional digits), decode yields a Float carrying the
denoted value exactly when the fractional group is present, and otherwise an
Int; in particular `decode({"N": "3"})` is the Int `3`,
`decode({"N": "3.5"})` the Float `3.5`, and `decode({"N": "-2.0"})` the
Float `-2.0`. -/
theorem C5_numeric_grammar :
    (∀ (neg : Bool) (ip : List Char) (fp : Option (List Char)),
      isDigits ip = true → (∀ f, fp = some f → isDigits f = true) →
      decode (.dict [("N", .str (specNumRender neg ip fp))]) =
        .ok (match fp with
             | some _ => .float (specNumValue neg ip fp)
             | none => .int ((cond neg (-1) 1) * (digitsVal ip : Int))))
    ∧ decode (.dict [("N", .str "3")]) = .ok (.int 3)
    ∧ decode (.dict [("N", .str "3.5")]) = .ok (.float (7/2 : ℚ))
    ∧ decode (.dict [("N", .str "-2.0")]) = .ok (.float (-2 : ℚ)) := by
  have hgen : ∀ (neg : Bool) (ip : List Char) (fp : Option (List Char)),
      isDigits ip = true → (∀ f, fp = some f → isDigits f = true) →
      decode (.dict [("N", .str (specNumRender neg ip fp))]) =
        .ok (match fp with
             | some _ => .float (specNumValue neg ip fp)
             | none => .int ((cond neg (-1) 1) * (digitsVal ip : Int))) := by
    intro neg ip fp hip hfp
    rw [decodeN_render neg ip fp hip hfp]
    cases fp <;> simp [specNumValue]
  refine ⟨hgen, ?_, ?_, ?_⟩
  · have h3 : ("3" : String) = specNumRender false ['3'] none := rfl
    rw [h3, hgen false ['3'] none (by decide) (fun f h => by cases h)]
    norm_num [digitsVal, show '3'.toNat = 51 from rfl]
  · have h35 : ("3.5" : String) = specNumRender false ['3'] (some ['5']) := rfl
    rw [h35, hgen false ['3'] (some ['5']) (by decide) (fun f h => by cases h; decide)]
    norm_num [specNumValue, digitsVal, show '3'.toNat = 51 from rfl, show '5'.toNat = 53 from rfl]
  · have h20 : ("-2.0" : String) = specNumRender true ['2'] (some ['0']) := rfl
    rw [h20, hgen true ['2'] (some ['0']) (by decide) (fun f h => by cases h; decide)]
    norm_num [specNumValue, digitsVal, show '2'.toNat = 50 from rfl, show '0'.toNat = 48 from rfl]

theorem C5_numeric_grammar_witness :
    decode (.dict [("N", .str (specNumRender false ['3'] (some ['5']))) ]) =
      .ok (.float (specNumValue false ['3'] (some ['5']))) :=
  C5_numeric_grammar.1 false ['3'] (some ['5']) (by decide) (fun f h => by cases h; decide)

/-! ## Claim C6: timestamp recovery in the `S` branch and the ordinary path -/

/-- C6: for every object tagged `S` with a string value, decode yields a
Timestamp exactly when the string parses against the fixed format
`%Y-%m-%dT%H:%M:%S.%f` (no timezone, microsecond precision — `strptimeTS`),
and otherwise yields the original string unchanged with no error; the same
parse-or-leave-unchanged rule is applied to every string field in the
ordinary-object path. -/
theorem C6_timestamp_parse :
    (∀ s : String,
      decode (.dict [("S", .str s)]) =
        .ok ((strptimeTS s).elim (Value.str s) Value.timestamp)
      ∧ ((∃ t, decode (.dict [("S", .str s)]) = .ok (.timestamp t))
          ↔ (strptimeTS s).isSome = true))
    ∧ (∀ (k s : String), k ∉ tagOrder →
      decode (.dict [(k, .str s)]) =
        .ok (.dict [(k, (strptimeTS s).elim (Value.str s) Value.timestamp)]))
    ∧ decode (.dict [("S", .str "2020-01-02T03:04:05.123456")])
        = .ok (.timestamp ⟨2020, 1, 2, 3, 4, 5, 123456⟩)
    ∧ decode (.dict [("S", .str "hello")]) = .ok (.str "hello") := by
  have hS : ∀ s : String, decode (.dict [("S", .str s)]) =
      .ok ((strptimeTS s).elim (Value.str s) Value.timestamp) := by
    intro s
    cases hst : strptimeTS s <;>
      simp [decode, decodeFields, objectHook, parseDynamodbObject, containsKey, lookupD, hst]
  refine ⟨fun s => ⟨hS s, ?_⟩, ?_, ?_, ?_⟩
  · rw [hS s]
    cases hst : strptimeTS s <;> simp
  · intro k s hk
    simp only [tagOrder, List.mem_cons, List.not_mem_nil, or_false, not_or] at hk
    obtain ⟨hk1, hk2, hk3, hk4, hk5, hk6, hk7, hk8, hk9, hk10⟩ := hk
    cases hst : strptimeTS s <;>
      simp [decode, decodeFields, objectHook, parseDynamodbObject, containsKey, lookupD,
        hookField, hst, hk1, hk2, hk3, hk4, hk5, hk6, hk7, hk8, hk9, hk10]
  · have hts : strptimeTS "2020-01-02T03:04:05.123456" = some ⟨2020, 1, 2, 3, 4, 5, 123456⟩ := by
      decide
    rw [hS "2020-01-02T03:04:05.123456", hts]
    rfl
  · have hn : strptimeTS "hello" = none := by decide
    rw [hS "hello", hn]
    rfl

theorem C6_timestamp_parse_witness :
    decode (.dict [("name", .str "hello")]) =
      .ok (.dict [("name", (strptimeTS "hello").elim (Value.str "hello") Value.timestamp)]) :=
  C6_timestamp_parse.2.1 "name" "hello" (by decide)

/-! ## Claim C9: decoding well-formed attribute-values, and second-pass stability -/

/-- Well-formed attribute-value objects with exactly one tag key (spec §3 and
§8): the tag value has the type the wire format prescribes — `S`/`B` carry
strings, `N` a string of the numeric grammar, `SS`/`NS`/`BS` lists of
strings, `M` an object whose keys are attribute names (not tag keys) and
whose values are themselves attribute-values, `L` a list of
attribute-values, and `NULL` the literal `true`. -/
inductive WFAV : Value → Prop where
  | bool (b : Bool) : WFAV (.dict [("BOOL", .bool b)])
  | s (s : String) : WFAV (.dict [("S", .str s)])
  | ss (ss : List String) : WFAV (.dict [("SS", .list (ss.map Value.str))])
  | n (neg : Bool) (ip : List Char) (fp : Option (List Char)) (h1 : isDigits ip = true)
      (h2 : ∀ f, fp = some f → isDigits f = true) :
      WFAV (.dict [("N", .str (specNumRender neg ip fp))])
  | b (s : String) : WFAV (.dict [("B", .str s)])
  | ns (ss : List String) : WFAV (.dict [("NS", .list (ss.map Value.str))])
  | bs (ss : List String) : WFAV (.dict [("BS", .list (ss.map Value.str))])
  | m (fs : List (String × Value)) (hk : ∀ p ∈ fs, p.1 ∉ tagOrder)
      (hv : ∀ p ∈ fs, WFAV p.2) : WFAV (.dict [("M", .dict fs)])
  | l (xs : List Value) (h : ∀ x ∈ xs, WFAV x) : WFAV (.dict [("L", .list xs)])
  | null : WFAV (.dict [("NULL", .bool true)])

theorem decodeList_of_fixed {ws : List Value} (h : ∀ w ∈ ws, decode w = .ok w) :
    decodeList ws = .ok ws := by
  induction ws with
  | nil => simp [decodeList]
  | cons w t ih =>
    simp [decodeList, h w (by simp), ih (fun x hx => h x (by simp [hx]))]

theorem decodeFields_of_fixed {fs : List (String × Value)}
    (h : ∀ p ∈ fs, decode p.2 = .ok p.2) :
    decodeFields fs = .ok fs := by
  induction fs with
  | nil => simp [decodeFields]
  | cons p t ih =>
    obtain ⟨k, v⟩ := p
    simp [decodeFields, h ⟨k, v⟩ (by simp), ih (fun q hq => h q (by simp [hq]))]

theorem map_hookField_id {fs : List (String × Value)}
    (h : ∀ p ∈ fs, hookField p.2 = p.2) :
    fs.map (fun p => (p.1, hookField p.2)) = fs := by
  induction fs with
  | nil => simp
  | cons p t ih =>
    obtain ⟨k, v⟩ := p
    simp [h ⟨k, v⟩ (by simp), ih (fun q hq => h q (by simp [hq]))]

theorem hookField_idem (v : Value) : hookField (hookField v) = hookField v := by
  cases v with
  | str s =>
    cases hst : strptimeTS s with
    | some t => simp [hookField, hst]
    | none => simp [hookField, hst]
  | decimal q =>
    by_cases h : 0 < decMod1 q <;> simp [hookField, h]
  | _ => simp [hookField]

theorem decode_hookField_fixed {w : Value} (h : decode w = .ok w) :
    decode (hookField w) = .ok (hookField w) := by
  cases w with
  | str s =>
    cases hst : strptimeTS s with
    | some t => simp [hookField, hst, decode]
    | none => simp [hookField, hst, decode]
  | decimal q =>
    by_cases hq : 0 < decMod1 q <;> simp [hookField, hq, decode]
  | _ => simpa [hookField] using h

theorem containsKey_false_of_no_tag {fs : List (String × Value)}
    (hk : ∀ p ∈ fs, p.1 ∉ tagOrder) {tg : String} (htg : tg ∈ tagOrder) :
    containsKey fs tg = false := by
  by_contra hcc
  rw [Bool.not_eq_false] at hcc
  obtain ⟨p, hp, hpe⟩ := List.any_eq_true.mp hcc
  rw [beq_iff_eq] at hpe
  exact hk p hp (hpe ▸ htg)

theorem objectHook_ordinary {fs : List (String × Value)}
    (hk : ∀ p ∈ fs, p.1 ∉ tagOrder) :
    objectHook fs = .ok (.dict (fs.map (fun p => (p.1, hookField p.2)))) := by
  have hc : ∀ tg, tg ∈ tagOrder → containsKey fs tg = false :=
    fun tg htg => containsKey_false_of_no_tag hk htg
  simp [objectHook, parseDynamodbObject,
    hc "BOOL" (by simp [tagOrder]), hc "S" (by simp [tagOrder]),
    hc "SS" (by simp [tagOrder]), hc "N" (by simp [tagOrder]),
    hc "B" (by simp [tagOrder]), hc "NS" (by simp [tagOrder]),
    hc "BS" (by simp [tagOrder]), hc "M" (by simp [tagOrder]),
    hc "L" (by simp [tagOrder]), hc "NULL" (by simp [tagOrder])]

theorem ordinary_dict_decode {fs : List (String × Value)}
    (hk : ∀ p ∈ fs, p.1 ∉ tagOrder)
    (hfix : ∀ p ∈ fs, decode p.2 = .ok p.2)
    (hhook : ∀ p ∈ fs, hookField p.2 = p.2) :
    decode (.dict fs) = .ok (.dict fs) := by
  simp [decode, decodeFields_of_fixed hfix, objectHook_ordinary hk, map_hookField_id hhook]

theorem decodeFields_exists {fs : List (String × Value)}
    (h : ∀ p ∈ fs, ∃ w, decode p.2 = .ok w ∧ decode w = .ok w) :
    ∃ fs', decodeFields fs = .ok fs'
      ∧ fs'.map Prod.fst = fs.map Prod.fst
      ∧ ∀ p ∈ fs', decode p.2 = .ok p.2 := by
  induction fs with
  | nil => exact ⟨[], by simp [decodeFields], by simp, by simp⟩
  | cons p t ih =>
    obtain ⟨k, v⟩ := p
    obtain ⟨w, hw, hwfix⟩ := h ⟨k, v⟩ (by simp)
    obtain ⟨t', ht', hkeys, hfix⟩ := ih (fun q hq => h q (by simp [hq]))
    refine ⟨(k, w) :: t', by simp [decodeFields, hw, ht'], by simp [hkeys], ?_⟩
    intro q hq
    rcases List.mem_cons.mp hq with rfl | hq'
    · exact hwfix
    · exact hfix q hq'

theorem decodeList_exists {xs : List Value}
    (h : ∀ x ∈ xs, ∃ w, decode x = .ok w ∧ decode w = .ok w) :
    ∃ ws, decodeList xs = .ok ws ∧ ∀ w ∈ ws, decode w = .ok w := by
  induction xs with
  | nil => exact ⟨[], by simp [decodeList], by simp⟩
  | cons x t ih =>
    obtain ⟨w, hw, hwfix⟩ := h x (by simp)
    obtain ⟨ws, hws, hfix⟩ := ih (fun y hy => h y (by simp [hy]))
    refine ⟨w :: ws, by simp [decodeList, hw, hws], ?_⟩
    intro u hu
    rcases List.mem_cons.mp hu with rfl | hu'
    · exact hwfix
    · exact hfix u hu'

theorem pySet_strs (ss : List String) :
    pySet (.list (ss.map Value.str)) = .ok (dedupPy (ss.map Value.str)) := by
  have hall : (ss.map Value.str).all pyHashable = true := by
    rw [List.all_eq_true]
    intro x hx
    obtain ⟨s, -, rfl⟩ := List.mem_map.mp hx
    rfl
  simp [pySet, hall]

theorem wfav_decode_out : ∀ v, WFAV v → ∃ w, decode v = .ok w ∧ decode w = .ok w := by
  intro v hwf
  induction hwf with
  | bool b =>
    exact ⟨.bool b,
      by simp [decode, decodeFields, objectHook, parseDynamodbObject, containsKey, lookupD],
      by simp [decode]⟩
  | s s' =>
    cases hst : strptimeTS s' with
    | some t =>
      exact ⟨.timestamp t,
        by simp [decode, decodeFields, objectHook, parseDynamodbObject, containsKey, lookupD, hst],
        by simp [decode]⟩
    | none =>
      exact ⟨.str s',
        by simp [decode, decodeFields, objectHook, parseDynamodbObject, containsKey, lookupD, hst],
        by simp [decode]⟩
  | ss ss' =>
    refine ⟨.list (ss'.map Value.str), ?_, ?_⟩
    · simp [decode, decodeFields, objectHook, parseDynamodbObject, containsKey, lookupD,
        pyList, decodeList_strs ss']
    · simp [decode, decodeList_strs ss']
  | n neg ip fp h1 h2 =>
    cases fp with
    | none =>
      exact ⟨.int ((cond neg (-1) 1) * (digitsVal ip : Int)),
        decodeN_render neg ip none h1 h2, by simp [decode]⟩
    | some f =>
      exact ⟨.float ((cond neg (-1) 1 : ℚ) *
          ((digitsVal ip : ℚ) + (digitsVal f : ℚ) / 10 ^ f.length)),
        decodeN_render neg ip (some f) h1 h2, by simp [decode]⟩
  | b s' =>
    refine ⟨.str s', ?_, by simp [decode]⟩
    simp [decode, decodeFields, objectHook, parseDynamodbObject, containsKey, lookupD, pyStr]
  | ns ss' =>
    refine ⟨.set (dedupPy (ss'.map Value.str)), ?_, by simp [decode]⟩
    simp [decode, decodeFields, objectHook, parseDynamodbObject, containsKey, lookupD,
      decodeList_strs ss', pySet_strs ss']
  | bs ss' =>
    refine ⟨.set (dedupPy (ss'.map Value.str)), ?_, by simp [decode]⟩
    simp [decode, decodeFields, objectHook, parseDynamodbObject, containsKey, lookupD,
      decodeList_strs ss', pySet_strs ss']
  | m fs hk hv ih =>
    obtain ⟨fs', hdf, hkeys, hfix⟩ := decodeFields_exists ih
    have hk' : ∀ p ∈ fs', p.1 ∉ tagOrder := by
      intro p hp
      have hmem : p.1 ∈ fs'.map Prod.fst := List.mem_map_of_mem _ hp
      rw [hkeys] at hmem
      obtain ⟨q, hq, hqe⟩ := List.mem_map.mp hmem
      exact hqe ▸ hk q hq
    have hinner : decode (.dict fs) = .ok (.dict (fs'.map (fun p => (p.1, hookField p.2)))) := by
      simp [decode, hdf, objectHook_ordinary hk']
    refine ⟨.dict (fs'.map (fun p => (p.1, hookField p.2))), ?_, ?_⟩
    · have houter : decodeFields [("M", Value.dict fs)]
          = .ok [("M", Value.dict (fs'.map (fun p => (p.1, hookField p.2))))] := by
        simp [decodeFields, hinner]
      simp only [decode]
      rw [houter]
      simp [objectHook, parseDynamodbObject, containsKey, lookupD]
    · apply ordinary_dict_decode
      · intro p hp
        obtain ⟨q, hq, rfl⟩ := List.mem_map.mp hp
        exact hk' q hq
      · intro p hp
        obtain ⟨q, hq, rfl⟩ := List.mem_map.mp hp
        exact decode_hookField_fixed (hfix q hq)
      · intro p hp
        obtain ⟨q, hq, rfl⟩ := List.mem_map.mp hp
        exact hookField_idem q.2
  | l xs h ih =>
    obtain ⟨ws, hws, hfix⟩ := decodeList_exists ih
    refine ⟨.list ws, ?_, ?_⟩
    · simp [decode, decodeFields, objectHook, parseDynamodbObject, containsKey, lookupD, hws]
    · simp [decode, decodeList_of_fixed hfix]
  | null =>
    exact ⟨.null,
      by simp [decode, decodeFields, objectHook, parseDynamodbObject, containsKey, lookupD,
        isTrueLit],
      by simp [decode]⟩

/-- C9: for every well-formed attribute-value object with exactly one tag
key, decoding succeeds (decode is a function, hence deterministic), and the
decode pass applied a second time to its own output is a no-op: the native
value produced by the first pass is returned unchanged. -/
theorem C9_decode_idempotent_on_output (v : Value) (h : WFAV v) :
    ∃ w, decode v = .ok w ∧ decode w = .ok w :=
  wfav_decode_out v h

theorem C9_decode_idempotent_on_output_witness :
    ∃ w, decode (.dict [("N", .str "3")]) = .ok w ∧ decode w = .ok w :=
  C9_decode_idempotent_on_output (.dict [("N", .str "3")])
    (WFAV.n false ['3'] none (by decide) (fun f hf => by cases hf))
